import Mathlib

set_option maxRecDepth 16384

/-!
Verification of the Linux Command TUI Helper (src/main.py).

The Python program is embedded shallowly:
  * strings are Lean `String`s; Python truthiness of a string is the
    non-emptiness test;
  * `str.strip`, `str.lower` and `str.split(maxsplit=1)` are modelled on
    the character list of the string, with `Char.isWhitespace` playing the
    role of the whitespace class;
  * the conversation context is the record `Context`;
  * one iteration of the session loop body (lines 296-395 of main.py) is
    `runTurn`, split into the classification and dispatch stage
    `classifyTurn` (lines 309-368, which also performs the fresh-command
    context reset) followed by the history update (lines 379-390), with
    the accumulated generation result passed in as a string (empty string
    for a failed or empty generation, exactly the condition tested by
    `if full_response:`);
  * the streaming decoder of `ask_ollama` (lines 55-66) is
    `ask_ollama_stream`, taking the decoded newline-delimited lines;
  * the availability probe `check_ollama` (lines 39-45) is a function of
    the outcome of the GET request.
-/

/-- Model of Python `str.lower` (line 317 etc.): lower-case every character. -/
def pyLower (s : String) : String := ⟨s.data.map Char.toLower⟩

/-- Strip whitespace from both ends of a character list, as Python `str.strip`. -/
def stripList (l : List Char) : List Char :=
  ((l.dropWhile Char.isWhitespace).reverse.dropWhile Char.isWhitespace).reverse

/-- Model of Python `str.strip` (line 312). -/
def pyStrip (s : String) : String := ⟨stripList s.data⟩

/-- Model of Python `str.split(maxsplit=1)` (line 335): split on the first
whitespace run, discarding leading whitespace; at most two pieces. -/
def splitMax1 (s : String) : List String :=
  let l := s.data.dropWhile Char.isWhitespace
  if l = [] then []
  else
    let w := l.takeWhile (fun c => ! c.isWhitespace)
    let r := (l.dropWhile (fun c => ! c.isWhitespace)).dropWhile Char.isWhitespace
    if r = [] then [⟨w⟩] else [⟨w⟩, ⟨r⟩]

/-- The first whitespace-separated word of a string (the `parts[0]` of
Python `split`), defined for any string with a non-whitespace character. -/
def firstWord (s : String) : String :=
  ⟨(s.data.dropWhile Char.isWhitespace).takeWhile (fun c => ! c.isWhitespace)⟩

/-- The fixed text before the command in `format_tutorial_prompt` (line 75). -/
def tutorialHead : String := "Provide a concise, practical tutorial for the Linux command: "

/-- The fixed text after the command in `format_tutorial_prompt` (lines 75-84). -/
def tutorialTail : String := "\n\nInclude:\n1. Brief description (1-2 sentences)\n2. Basic syntax\n3. 3-5 most useful examples with explanations\n4. Common options/flags\n5. One tip or warning\n\nKeep it practical and beginner-friendly. Use markdown formatting."

/-- The block appended to a base prompt when the conversation history is
non-empty (lines 87 and 103 of main.py; both functions use the same text). -/
def historyBlock (conversation_history : String) : String :=
  "\n\nPrevious conversation:\n" ++ conversation_history ++ "\n\nPlease answer the follow-up question above, maintaining context from the previous discussion."

/-- Model of `format_tutorial_prompt` (lines 73-89). -/
def format_tutorial_prompt (command conversation_history : String) : String :=
  let base := tutorialHead ++ command ++ tutorialTail
  if conversation_history ≠ "" then base ++ historyBlock conversation_history else base

/-- The fixed text before the task in `format_stepbystep_prompt` (line 93). -/
def stepsHead : String := "Provide clear step-by-step instructions for: "

/-- The fixed text after the task in `format_stepbystep_prompt` (lines 93-100). -/
def stepsTail : String := "\n\nFormat as:\n1. Step 1: [command] - explanation\n2. Step 2: [command] - explanation\n...\n\nInclude actual commands to run. Keep it concise and actionable. Use markdown formatting."

/-- Model of `format_stepbystep_prompt` (lines 91-105). -/
def format_stepbystep_prompt (task conversation_history : String) : String :=
  let base := stepsHead ++ task ++ stepsTail
  if conversation_history ≠ "" then base ++ historyBlock conversation_history else base

/-- Model of `format_followup_prompt` (lines 107-116). -/
def format_followup_prompt (conversation_history followup_question : String) : String :=
  "You are helping a user learn Linux commands. Maintain context from the previous conversation and answer the follow-up question.\n\nPrevious conversation:\n" ++ conversation_history ++ "\n\nFollow-up question: " ++ followup_question ++ "\n\nProvide a helpful, concise answer that builds on the previous context. Use markdown formatting where appropriate."

/-- The conversation context dictionary of line 293:
mode (None or a string), topic and accumulated history. -/
structure Context where
  mode : Option String
  topic : String
  history : String
deriving DecidableEq, Repr

/-- Python truthiness of the `mode` entry (None or a string). -/
def truthyMode : Option String → Bool
  | none => false
  | some s => s != ""

/-- Result of one loop iteration: whether the loop breaks, the request
issued (the `response_mode` label together with the prompt, if a generation
request was made this turn), the `query` variable, and the context. -/
structure Dispatch where
  exit : Bool
  req : Option (String × String)
  query : String
  ctx : Context
deriving DecidableEq, Repr

/-- The classification and dispatch stage of the loop body
(lines 309-368): strip the input, handle quit/exit/q, clear, help and
empty input, split the rest, decide between fresh command and follow-up,
build the prompt, and perform the fresh-command context reset of
lines 363 and 368.  The returned context is the context as it stands
right before the generation call. -/
def classifyTurn (c : Context) (rawInput : String) : Dispatch :=
  let u := pyStrip rawInput
  if u = "" then ⟨false, none, "", c⟩
  else if pyLower u = "quit" ∨ pyLower u = "exit" ∨ pyLower u = "q" then ⟨true, none, "", c⟩
  else if pyLower u = "clear" then ⟨false, none, "", c⟩
  else if pyLower u = "help" then ⟨false, none, "", c⟩
  else
    match splitMax1 u with
    | w :: q :: _ =>
      let m := pyLower w
      if m = "tutorial" ∨ m = "steps" ∨ m = "step" then
        if m = "tutorial" then
          ⟨false, some ("tutorial", format_tutorial_prompt q ""), q, ⟨some "tutorial", q, ""⟩⟩
        else
          ⟨false, some ("steps", format_stepbystep_prompt q ""), q, ⟨some "steps", q, ""⟩⟩
      else
        if truthyMode c.mode && (c.topic != "") then
          ⟨false, some ("followup", format_followup_prompt c.history u), u, c⟩
        else ⟨false, none, "", c⟩
    | _ =>
      if truthyMode c.mode && (c.topic != "") then
        ⟨false, some ("followup", format_followup_prompt c.history u), u, c⟩
      else ⟨false, none, "", c⟩

/-- The history update of lines 382-386: seed the history with the topic
line when it is empty, otherwise append the new exchange. -/
def updateHistory (c : Context) (query resp : String) : Context :=
  if c.history ≠ "" then
    ⟨c.mode, c.topic, c.history ++ "\nUser: " ++ query ++ "\nAssistant: " ++ resp ++ "\n"⟩
  else
    ⟨c.mode, c.topic, "Topic: " ++ c.topic ++ "\nUser: " ++ query ++ "\nAssistant: " ++ resp ++ "\n"⟩

/-- One full iteration of the session loop body (lines 296-395).
`resp` is the accumulated generation text (`full_response`); it is the
empty string exactly when the turn failed or produced nothing, the
condition of `if full_response:` on line 379.  On a non-empty response the
history is updated; otherwise an error is shown and the context is left
as the classification stage produced it. -/
def runTurn (c : Context) (rawInput resp : String) : Dispatch :=
  let d := classifyTurn c rawInput
  match d.req with
  | none => d
  | some _ =>
    if resp ≠ "" then ⟨false, d.req, d.query, updateHistory d.ctx d.query resp⟩
    else d

/-- Outcome of the GET issued by `check_ollama`: either the server
answered with some status code, or a `requests` network failure
(timeout, connection refused, DNS) was raised. -/
inductive TagsOutcome where
  | resp : Nat → TagsOutcome
  | failure : TagsOutcome
deriving DecidableEq, Repr

/-- Model of `check_ollama` (lines 39-45): true only when the GET
completed with HTTP 200; every network failure is caught and yields
false. -/
def check_ollama : TagsOutcome → Bool
  | .resp status => status == 200
  | .failure => false

/-- One decoded line of the streaming generation response: either a falsy
(empty) line, skipped by `if line:`, or a JSON object given by its
fields (string-valued, as the `response` field is). -/
inductive StreamLine where
  | blank : StreamLine
  | obj : List (String × String) → StreamLine
deriving DecidableEq, Repr

/-- The loop body of the streaming accumulation, one line at a time. -/
def streamStep (acc : String) : StreamLine → String
  | .blank => acc
  | .obj fields =>
    match fields.lookup "response" with
    | some chunk => acc ++ chunk
    | none => acc

/-- The streaming accumulation loop of `ask_ollama` (lines 57-66):
concatenate, in arrival order, the `response` field of every
non-empty line that has one. -/
def ask_ollama_stream (lines : List StreamLine) : String :=
  lines.foldl streamStep ""

/-- Outcome of one generation call as the main loop observes it.
`ask_ollama` is a generator (lines 47-71): its `except` swallows any
transport or decode exception raised mid-iteration, prints an error and
simply stops yielding, so the caller keeps exactly the chunks yielded
before the failure.  `lines` are the decoded lines the generator
processed before finishing or failing; `raised` records whether the
transport/decode raised afterwards (invisible to the caller beyond the
missing chunks). -/
structure GenOutcome where
  lines : List StreamLine
  raised : Bool

/-- The accumulated `full_response` of lines 372-376: the concatenation
of the yielded chunks, whether or not the generator later raised. -/
def genText (g : GenOutcome) : String := ask_ollama_stream g.lines

/-- One full iteration of the session loop body, driven by a generation
outcome. -/
def runTurnGen (c : Context) (rawInput : String) (g : GenOutcome) : Dispatch :=
  runTurn c rawInput (genText g)

/-- The contexts reachable by the session loop from the initial context
of line 293. -/
inductive Reachable : Context → Prop where
  | init : Reachable ⟨none, "", ""⟩
  | step (c : Context) (rawInput resp : String) :
      Reachable c → Reachable (runTurn c rawInput resp).ctx

/-- The phrase whose absence from a history-free tutorial prompt the
specification asserts. -/
def prevConv : String := "Previous conversation"

/-- Substring containment, stated on the character lists. -/
abbrev containsStr (s pat : String) : Prop := pat.data <:+: s.data

/-- The mode string stored for a fresh command word (lines 359-368):
the word tutorial stores tutorial, the words steps and step store steps. -/
def modeWord (m : String) : String := if m = "tutorial" then "tutorial" else "steps"

/-! Auxiliary lemmas about characters, whitespace and the split model. -/

/-- Lower-casing fixes whitespace characters. -/
lemma toLower_of_ws {c : Char} (h : c.isWhitespace = true) : c.toLower = c := by
  simp only [Char.isWhitespace, Bool.or_eq_true, decide_eq_true_eq] at h
  rcases h with ((h | h) | h) | h <;> subst h <;> decide

/-- The head of a non-empty `dropWhile` result witnesses a list element
where the predicate fails. -/
lemma exists_mem_not_of_dropWhile_ne_nil {α} {p : α → Bool} {l : List α}
    (h : l.dropWhile p ≠ []) : ∃ c ∈ l, p c = false := by
  induction l with
  | nil => simp [List.dropWhile] at h
  | cons a l ih =>
    by_cases hpa : p a = true
    · rw [List.dropWhile_cons_of_pos hpa] at h
      obtain ⟨c, hc, hpc⟩ := ih h
      exact ⟨c, List.mem_cons_of_mem _ hc, hpc⟩
    · exact ⟨a, List.mem_cons_self _ _, by simpa using hpa⟩

/-- If no character of a string lower-cases into a whitespace character of
the target, and the target has no whitespace, neither does the source. -/
lemma no_ws_of_pyLower {u kw : String} (hkw : ∀ c ∈ kw.data, c.isWhitespace = false)
    (h : pyLower u = kw) : ∀ c ∈ u.data, c.isWhitespace = false := by
  intro c hc
  by_contra hws
  rw [Bool.not_eq_false] at hws
  have hmem : c.toLower ∈ (pyLower u).data := List.mem_map_of_mem Char.toLower hc
  rw [h, toLower_of_ws hws] at hmem
  have := hkw c hmem
  rw [this] at hws
  exact Bool.false_ne_true hws

/-- A string without whitespace is its own first word. -/
lemma firstWord_of_no_ws {u : String} (h : ∀ c ∈ u.data, c.isWhitespace = false) :
    firstWord u = u := by
  apply String.ext
  show ((u.data.dropWhile Char.isWhitespace).takeWhile (fun c => ! c.isWhitespace)) = u.data
  have h1 : u.data.dropWhile Char.isWhitespace = u.data := by
    cases hu : u.data with
    | nil => simp
    | cons a l =>
      have := h a (by rw [hu]; exact List.mem_cons_self _ _)
      rw [List.dropWhile_cons_of_neg (by simp [this])]
  rw [h1, List.takeWhile_eq_self_iff.2 ?_]
  intro c hc
  simp [h c hc]

/-- If the whole lowered input is one of the bare keywords (which contain
no whitespace), its lowered first word is that keyword as well. -/
lemma firstWord_of_ctrl {u kw : String}
    (hkw : kw ∈ (["quit", "exit", "q", "clear", "help"] : List String))
    (h : pyLower u = kw) : pyLower (firstWord u) = kw := by
  have hnws : ∀ c ∈ kw.data, c.isWhitespace = false := by
    fin_cases hkw <;> decide
  rw [firstWord_of_no_ws (no_ws_of_pyLower hnws h), h]

/-- A two-piece split has a non-empty second piece, nothing after it, and
forces a whitespace character in the input. -/
lemma splitMax1_pair {u w q : String} {rest : List String}
    (h : splitMax1 u = w :: q :: rest) :
    w = firstWord u ∧ q ≠ "" ∧ rest = [] ∧ ∃ c ∈ u.data, c.isWhitespace = true := by
  unfold splitMax1 at h
  by_cases h0 : u.data.dropWhile Char.isWhitespace = []
  · simp [h0] at h
  · rw [if_neg h0] at h
    set l := u.data.dropWhile Char.isWhitespace with hl
    by_cases h1 : (l.dropWhile (fun c => ! c.isWhitespace)).dropWhile Char.isWhitespace = []
    · simp only [if_pos h1] at h
      cases h
    · simp only [if_neg h1, List.cons.injEq] at h
      obtain ⟨hw, hq, hrest⟩ := h
      refine ⟨hw.symm, ?_, hrest.symm, ?_⟩
      · rw [← hq]
        intro hcon
        exact h1 (congrArg String.data hcon)
      · have h2 : l.dropWhile (fun c => ! c.isWhitespace) ≠ [] := by
          intro hcon
          rw [hcon] at h1
          exact h1 rfl
        obtain ⟨c, hc, hpc⟩ := exists_mem_not_of_dropWhile_ne_nil h2
        refine ⟨c, ?_, by simpa using hpc⟩
        exact (List.dropWhile_sublist Char.isWhitespace).subset hc

/-- A whitespace character in the input rules out the lowered input being
any of the whitespace-free keywords. -/
lemma lower_ne_of_ws {u kw : String} (hnws : ∀ c ∈ kw.data, c.isWhitespace = false)
    (hws : ∃ c ∈ u.data, c.isWhitespace = true) : pyLower u ≠ kw := by
  intro h
  obtain ⟨c, hc, hcw⟩ := hws
  have := no_ws_of_pyLower hnws h c hc
  rw [this] at hcw
  exact Bool.false_ne_true hcw

/-- An all-whitespace character list strips to the empty list. -/
lemma stripList_of_all_ws {l : List Char} (h : ∀ c ∈ l, c.isWhitespace = true) :
    stripList l = [] := by
  unfold stripList
  have h1 : l.dropWhile Char.isWhitespace = [] := List.dropWhile_eq_nil_iff.2 (by simpa using h)
  rw [h1]
  simp

/-- Splitting an infix occurrence across a list append: the occurrence
lies in the left part, lies in the right part, or spans the boundary with
a non-empty suffix of the left part and a non-empty prefix of the right. -/
lemma append_split_of_mid {α} {p x y : List α} (h : p <:+: x ++ y) :
    p <:+: x ∨ p <:+: y ∨
      ∃ p₁ p₂, p = p₁ ++ p₂ ∧ p₁ ≠ [] ∧ p₂ ≠ [] ∧ p₁ <:+ x ∧ p₂ <+: y := by
  obtain ⟨s, t, hst⟩ := h
  rw [List.append_assoc] at hst
  rcases List.append_eq_append_iff.1 hst with ⟨a, hx, hpt⟩ | ⟨c, hs, hy⟩
  · rcases List.append_eq_append_iff.1 hpt with ⟨b, ha, ht⟩ | ⟨d, hp, hy⟩
    · left
      exact ⟨s, b, by rw [hx, ha, List.append_assoc]⟩
    · by_cases ha0 : a = []
      · right; left
        subst ha0
        simp only [List.nil_append] at hp
        exact ⟨[], t, by rw [List.nil_append, hy, hp]⟩
      · by_cases hd0 : d = []
        · left
          subst hd0
          rw [List.append_nil] at hp
          exact ⟨s, [], by rw [List.append_nil, hp, hx]⟩
        · right; right
          exact ⟨a, d, hp, ha0, hd0, ⟨s, hx.symm⟩, ⟨t, hy.symm⟩⟩
  · right; left
    exact ⟨c, t, by rw [hy, List.append_assoc]⟩

/-! Structural lemmas about the loop body. -/

/-- The request issued by a turn is the one built by the classification
stage; the generation outcome does not change it. -/
lemma runTurn_req (c : Context) (i r : String) :
    (runTurn c i r).req = (classifyTurn c i).req := by
  unfold runTurn
  cases h : (classifyTurn c i).req with
  | none => simp [h]
  | some v =>
    simp only [h]
    split
    · rfl
    · exact h

/-- The context after a turn is the classified context, possibly with the
history update applied. -/
lemma runTurn_ctx_cases (c : Context) (i r : String) :
    (runTurn c i r).ctx = (classifyTurn c i).ctx ∨
      (runTurn c i r).ctx =
        updateHistory (classifyTurn c i).ctx (classifyTurn c i).query r := by
  unfold runTurn
  cases h : (classifyTurn c i).req with
  | none => left; simp [h]
  | some v =>
    simp only [h]
    split
    · right; rfl
    · left; rfl

/-- The history update never touches the mode. -/
lemma updateHistory_mode (c : Context) (q r : String) :
    (updateHistory c q r).mode = c.mode := by
  unfold updateHistory; split <;> rfl

/-- The history update never touches the topic. -/
lemma updateHistory_topic (c : Context) (q r : String) :
    (updateHistory c q r).topic = c.topic := by
  unfold updateHistory; split <;> rfl

/-- The mode after a turn is the mode chosen by the classification stage. -/
lemma runTurn_mode (c : Context) (i r : String) :
    (runTurn c i r).ctx.mode = (classifyTurn c i).ctx.mode := by
  rcases runTurn_ctx_cases c i r with h | h <;> rw [h]
  rw [updateHistory_mode]

/-- The topic after a turn is the topic chosen by the classification stage. -/
lemma runTurn_topic (c : Context) (i r : String) :
    (runTurn c i r).ctx.topic = (classifyTurn c i).ctx.topic := by
  rcases runTurn_ctx_cases c i r with h | h <;> rw [h]
  rw [updateHistory_topic]

/-- Exhaustive description of the classification stage: a turn is ignored
or exits (context unchanged, no request), or is a fresh command (context
reset), or is a follow-up (context unchanged, follow-up prompt). -/
lemma classifyTurn_cases (c : Context) (i : String) :
    classifyTurn c i = ⟨false, none, "", c⟩ ∨
    classifyTurn c i = ⟨true, none, "", c⟩ ∨
    (∃ w q rest, splitMax1 (pyStrip i) = w :: q :: rest ∧
      ((pyLower w = "tutorial" ∧
          classifyTurn c i =
            ⟨false, some ("tutorial", format_tutorial_prompt q ""), q,
              ⟨some "tutorial", q, ""⟩⟩) ∨
       ((pyLower w = "steps" ∨ pyLower w = "step") ∧
          classifyTurn c i =
            ⟨false, some ("steps", format_stepbystep_prompt q ""), q,
              ⟨some "steps", q, ""⟩⟩))) ∨
    (truthyMode c.mode = true ∧ c.topic ≠ "" ∧
      classifyTurn c i =
        ⟨false, some ("followup", format_followup_prompt c.history (pyStrip i)),
          pyStrip i, c⟩) := by
  by_cases h0 : pyStrip i = ""
  · left; unfold classifyTurn; simp [h0]
  by_cases h1 : pyLower (pyStrip i) = "quit" ∨ pyLower (pyStrip i) = "exit" ∨
      pyLower (pyStrip i) = "q"
  · right; left; unfold classifyTurn; simp [h0, h1]
  by_cases h2 : pyLower (pyStrip i) = "clear"
  · left; unfold classifyTurn; simp [h0, h1, h2]
  by_cases h3 : pyLower (pyStrip i) = "help"
  · left; unfold classifyTurn; simp [h0, h1, h2, h3]
  cases hsp : splitMax1 (pyStrip i) with
  | nil =>
    by_cases hf : (truthyMode c.mode && (c.topic != "")) = true
    · right; right; right
      rw [Bool.and_eq_true] at hf
      refine ⟨hf.1, bne_iff_ne.1 hf.2, ?_⟩
      unfold classifyTurn; simp [h0, h1, h2, h3, hsp, hf.1, hf.2]
    · left; unfold classifyTurn; simp [h0, h1, h2, h3, hsp, hf]
  | cons w tl =>
    cases tl with
    | nil =>
      by_cases hf : (truthyMode c.mode && (c.topic != "")) = true
      · right; right; right
        rw [Bool.and_eq_true] at hf
        refine ⟨hf.1, bne_iff_ne.1 hf.2, ?_⟩
        unfold classifyTurn; simp [h0, h1, h2, h3, hsp, hf.1, hf.2]
      · left; unfold classifyTurn; simp [h0, h1, h2, h3, hsp, hf]
    | cons q rest =>
      by_cases ht : pyLower w = "tutorial"
      · right; right; left
        refine ⟨w, q, rest, rfl, Or.inl ⟨ht, ?_⟩⟩
        unfold classifyTurn
        simp [h0, h1, h2, h3, hsp, ht]
      by_cases hs : pyLower w = "steps" ∨ pyLower w = "step"
      · right; right; left
        refine ⟨w, q, rest, rfl, Or.inr ⟨hs, ?_⟩⟩
        unfold classifyTurn
        rcases hs with hs | hs <;> simp [h0, h1, h2, h3, hsp, ht, hs]
      · have hm : ¬ (pyLower w = "tutorial" ∨ pyLower w = "steps" ∨ pyLower w = "step") := by
          simp only [not_or]
          exact ⟨ht, (not_or.mp hs).1, (not_or.mp hs).2⟩
        by_cases hf : (truthyMode c.mode && (c.topic != "")) = true
        · right; right; right
          rw [Bool.and_eq_true] at hf
          refine ⟨hf.1, bne_iff_ne.1 hf.2, ?_⟩
          unfold classifyTurn; simp [h0, h1, h2, h3, hsp, hm, hf.1, hf.2]
        · left; unfold classifyTurn; simp [h0, h1, h2, h3, hsp, hm, hf]

/-! The context invariant maintained by the session loop. -/

/-- Invariant on contexts: either idle (no mode, empty topic) or active
with one of the two normalized modes and a non-empty topic. -/
def CtxInv (c : Context) : Prop :=
  (c.mode = none ∧ c.topic = "") ∨
  ((c.mode = some "tutorial" ∨ c.mode = some "steps") ∧ c.topic ≠ "")

/-- The classification stage preserves the invariant. -/
lemma inv_classify (c : Context) (i : String) (h : CtxInv c) :
    CtxInv (classifyTurn c i).ctx := by
  rcases classifyTurn_cases c i with he | he |
      ⟨w, q, rest, hsp, ⟨_, he⟩ | ⟨_, he⟩⟩ | ⟨_, _, he⟩ <;> rw [he]
  · exact h
  · exact h
  · exact Or.inr ⟨Or.inl rfl, (splitMax1_pair hsp).2.1⟩
  · exact Or.inr ⟨Or.inr rfl, (splitMax1_pair hsp).2.1⟩
  · exact h

/-- The history update preserves the invariant. -/
lemma inv_update (c : Context) (q r : String) (h : CtxInv c) :
    CtxInv (updateHistory c q r) := by
  unfold updateHistory
  split <;> exact h

/-- A full turn preserves the invariant. -/
lemma inv_run (c : Context) (i r : String) (h : CtxInv c) :
    CtxInv (runTurn c i r).ctx := by
  rcases runTurn_ctx_cases c i r with he | he <;> rw [he]
  · exact inv_classify c i h
  · exact inv_update _ _ _ (inv_classify c i h)

/-- Every context reachable by the session loop satisfies the invariant. -/
lemma reachable_inv {c : Context} (h : Reachable c) : CtxInv c := by
  induction h with
  | init => exact Or.inl ⟨rfl, rfl⟩
  | step c i r _ ih => exact inv_run c i r ih

/-- A follow-up request is only built when the truthiness guard of
line 337 and line 347 held for the current context. -/
lemma followup_req_guard (c : Context) (i p : String)
    (h : (classifyTurn c i).req = some ("followup", p)) :
    truthyMode c.mode = true ∧ c.topic ≠ "" := by
  rcases classifyTurn_cases c i with he | he |
      ⟨w, q, rest, hsp, ⟨hm, he⟩ | ⟨hm, he⟩⟩ | ⟨h1, h2, he⟩
  · rw [he] at h; simp at h
  · rw [he] at h; simp at h
  · rw [he] at h
    simp only [Option.some.injEq, Prod.mk.injEq] at h
    exact absurd h.1 (by decide)
  · rw [he] at h
    simp only [Option.some.injEq, Prod.mk.injEq] at h
    exact absurd h.1 (by decide)
  · exact ⟨h1, h2⟩

/-! Claim theorems. -/

/-- C8: `check_ollama` returns true exactly when the GET to the listing
endpoint completed with HTTP status 200; in particular every network
failure yields false, and the model function is total, so no exception
reaches the caller. -/
theorem check_ollama_true_iff_200 (o : TagsOutcome) :
    check_ollama o = true ↔ o = TagsOutcome.resp 200 := by
  cases o with
  | resp s => simp [check_ollama]
  | failure => simp [check_ollama]

/-- C9: an input line consisting only of whitespace is stripped to the
empty string, so the turn is a no-op: the loop does not exit, makes no
generation request, and leaves the context untouched. -/
theorem whitespace_only_input_no_op (c : Context) (input resp : String)
    (h : ∀ ch ∈ input.data, ch.isWhitespace = true) :
    runTurn c input resp = ⟨false, none, "", c⟩ := by
  have hu : pyStrip input = "" := by
    unfold pyStrip
    rw [stripList_of_all_ws h]
  have hcls : classifyTurn c input = ⟨false, none, "", c⟩ := by
    unfold classifyTurn
    simp [hu]
  unfold runTurn
  rw [hcls]

/-- Witness for C9 at a concrete whitespace-only input. -/
theorem whitespace_only_input_no_op_wit :
    runTurn ⟨some "tutorial", "grep", "H"⟩ " \t  " "R" =
      ⟨false, none, "", ⟨some "tutorial", "grep", "H"⟩⟩ :=
  whitespace_only_input_no_op ⟨some "tutorial", "grep", "H"⟩ " \t  " "R" (by decide)


/-- One accumulation step splits off the previous accumulator. -/
lemma streamStep_append (acc : String) (l : StreamLine) :
    streamStep acc l = acc ++ streamStep "" l := by
  cases l with
  | blank => simp [streamStep]
  | obj fields =>
    unfold streamStep
    cases h : fields.lookup "response" <;> simp [h]

/-- Folding the accumulation from any accumulator prepends it. -/
lemma ask_ollama_stream_acc (lines : List StreamLine) (acc : String) :
    lines.foldl streamStep acc = acc ++ ask_ollama_stream lines := by
  induction lines generalizing acc with
  | nil => simp [ask_ollama_stream]
  | cons l ls ih =>
    unfold ask_ollama_stream
    rw [List.foldl_cons, List.foldl_cons, ih (streamStep acc l), ih (streamStep "" l),
      streamStep_append acc l, String.append_assoc]

/-- C6: the streaming decoder concatenates response fields in arrival
order, skipping blank lines and lines without a `response` key: it is an
append homomorphism whose value on a single line is the line's `response`
field (or nothing), and the specification's concrete four-line example
assembles to exactly Hello!. -/
theorem streaming_decode_assembles :
    (∀ l₁ l₂ : List StreamLine,
        ask_ollama_stream (l₁ ++ l₂) = ask_ollama_stream l₁ ++ ask_ollama_stream l₂) ∧
    (∀ (fields : List (String × String)) (chunk : String),
        fields.lookup "response" = some chunk →
        ask_ollama_stream [StreamLine.obj fields] = chunk) ∧
    (∀ fields : List (String × String), fields.lookup "response" = none →
        ask_ollama_stream [StreamLine.obj fields] = "") ∧
    ask_ollama_stream [StreamLine.blank] = "" ∧
    ask_ollama_stream
        [StreamLine.obj [("response", "Hel")], StreamLine.obj [("response", "lo")],
         StreamLine.obj [], StreamLine.obj [("response", "!")]] = "Hello!" := by
  refine ⟨?_, ?_, ?_, rfl, by decide⟩
  · intro l₁ l₂
    unfold ask_ollama_stream
    rw [List.foldl_append]
    exact ask_ollama_stream_acc l₂ _
  · intro fields chunk h
    unfold ask_ollama_stream
    simp [streamStep, h]
  · intro fields h
    unfold ask_ollama_stream
    simp [streamStep, h]

/-- Witness for C6 at a concrete single-line stream. -/
theorem streaming_decode_assembles_wit :
    ask_ollama_stream [StreamLine.obj [("response", "abc")]] = "abc" :=
  streaming_decode_assembles.2.1 [("response", "abc")] "abc" rfl

/-- C2: in every reachable context, mode and topic are set together
(mode is not None exactly when topic is non-empty), and a follow-up
generation request is only issued when both are set. -/
theorem mode_topic_set_together (c : Context) (hc : Reachable c) :
    (c.mode ≠ none ↔ c.topic ≠ "") ∧
    ∀ i r p : String, (runTurn c i r).req = some ("followup", p) →
      c.mode ≠ none ∧ c.topic ≠ "" := by
  constructor
  · rcases reachable_inv hc with ⟨h1, h2⟩ | ⟨h1, h2⟩
    · rw [h1, h2]; simp
    · constructor
      · intro _; exact h2
      · intro _
        rcases h1 with h | h <;> rw [h] <;> simp
  · intro i r p hreq
    rw [runTurn_req] at hreq
    obtain ⟨hm, ht⟩ := followup_req_guard c i p hreq
    refine ⟨?_, ht⟩
    cases hmode : c.mode with
    | none => rw [hmode] at hm; exact absurd hm (by decide)
    | some s => simp

/-- Witness for C2 at a concrete reachable active context. -/
theorem mode_topic_set_together_wit :
    (⟨some "tutorial", "grep", "Topic: grep\nUser: grep\nAssistant: R1\n"⟩ : Context).mode ≠ none ↔
    (⟨some "tutorial", "grep", "Topic: grep\nUser: grep\nAssistant: R1\n"⟩ : Context).topic ≠ "" := by
  have h2 := Reachable.step ⟨none, "", ""⟩ "tutorial grep" "R1" Reachable.init
  have he : (runTurn ⟨none, "", ""⟩ "tutorial grep" "R1").ctx =
      ⟨some "tutorial", "grep", "Topic: grep\nUser: grep\nAssistant: R1\n"⟩ := by decide
  rw [he] at h2
  exact (mode_topic_set_together _ h2).1

/-- When the split of the stripped input has two pieces and the first word
lowers to a mode keyword, the classification is the fresh-command reset of
lines 359-368, regardless of the prior context. -/
lemma classifyTurn_fresh (c : Context) (i w q : String) (rest : List String)
    (hsp : splitMax1 (pyStrip i) = w :: q :: rest)
    (hm : pyLower w = "tutorial" ∨ pyLower w = "steps" ∨ pyLower w = "step") :
    classifyTurn c i =
      if pyLower w = "tutorial" then
        ⟨false, some ("tutorial", format_tutorial_prompt q ""), q, ⟨some "tutorial", q, ""⟩⟩
      else ⟨false, some ("steps", format_stepbystep_prompt q ""), q, ⟨some "steps", q, ""⟩⟩ := by
  have hws : ∃ ch ∈ (pyStrip i).data, ch.isWhitespace = true := (splitMax1_pair hsp).2.2.2
  have h0 : pyStrip i ≠ "" := by
    intro hcon
    rw [hcon] at hsp
    simp [splitMax1] at hsp
  have hq : ∀ kw : String, kw ∈ (["quit", "exit", "q", "clear", "help"] : List String) →
      pyLower (pyStrip i) ≠ kw := by
    intro kw hkw
    refine lower_ne_of_ws ?_ hws
    fin_cases hkw <;> decide
  have h1 : ¬ (pyLower (pyStrip i) = "quit" ∨ pyLower (pyStrip i) = "exit" ∨
      pyLower (pyStrip i) = "q") := by
    push_neg
    exact ⟨hq "quit" (by decide), hq "exit" (by decide), hq "q" (by decide)⟩
  unfold classifyTurn
  rw [if_neg h0, if_neg h1, if_neg (hq "clear" (by decide)), if_neg (hq "help" (by decide)), hsp]
  by_cases ht : pyLower w = "tutorial"
  · rw [if_pos ht]
    simp [ht]
  · rw [if_neg ht]
    rcases hm with hm | hm | hm
    · exact absurd hm ht
    · simp [hm]
    · simp [hm]

/-- C5: for every prior context (empty or not), an input whose first word
lowers to tutorial, steps or step and that has a second piece is treated
as a fresh command: the classification stage replaces the context with
the reset context carrying the normalized mode, the rest of the input as
topic, and an empty history, discarding all prior history. -/
theorem fresh_command_resets_context (c : Context) (i w q : String) (rest : List String)
    (hsp : splitMax1 (pyStrip i) = w :: q :: rest)
    (hm : pyLower w = "tutorial" ∨ pyLower w = "steps" ∨ pyLower w = "step") :
    (classifyTurn c i).ctx = ⟨some (modeWord (pyLower w)), q, ""⟩ := by
  rw [classifyTurn_fresh c i w q rest hsp hm]
  unfold modeWord
  by_cases ht : pyLower w = "tutorial"
  · rw [if_pos ht, if_pos ht]
  · rw [if_neg ht, if_neg ht]

/-- Witness for C5: a non-empty prior context and the input tutorial sed. -/
theorem fresh_command_resets_context_wit :
    (classifyTurn ⟨some "steps", "x", "Topic: x\nUser: x\nAssistant: y\n"⟩ "tutorial sed").ctx =
      ⟨some "tutorial", "sed", ""⟩ :=
  fresh_command_resets_context ⟨some "steps", "x", "Topic: x\nUser: x\nAssistant: y\n"⟩
    "tutorial sed" "tutorial" "sed" [] (by decide) (Or.inl (by decide))

/-- C10: every reachable context stores a mode among None, tutorial and
steps, and a fresh command whose first word is step stores the mode
steps, so the raw word step never appears as a context mode. -/
theorem mode_values_normalized :
    (∀ c : Context, Reachable c →
        c.mode = none ∨ c.mode = some "tutorial" ∨ c.mode = some "steps") ∧
    (∀ (c : Context) (i r w q : String) (rest : List String),
        splitMax1 (pyStrip i) = w :: q :: rest → pyLower w = "step" →
        (runTurn c i r).ctx.mode = some "steps") := by
  constructor
  · intro c hc
    rcases reachable_inv hc with ⟨h1, _⟩ | ⟨h1, _⟩
    · exact Or.inl h1
    · rcases h1 with h | h
      · exact Or.inr (Or.inl h)
      · exact Or.inr (Or.inr h)
  · intro c i r w q rest hsp hw
    rw [runTurn_mode]
    have := fresh_command_resets_context c i w q rest hsp (Or.inr (Or.inr hw))
    rw [this]
    rw [hw]
    rfl

/-- Witness for C10 at the initial context and a concrete step command. -/
theorem mode_values_normalized_wit :
    ((⟨none, "", ""⟩ : Context).mode = none ∨
      (⟨none, "", ""⟩ : Context).mode = some "tutorial" ∨
      (⟨none, "", ""⟩ : Context).mode = some "steps") ∧
    (runTurn ⟨none, "", ""⟩ "step list files" "R").ctx.mode = some "steps" :=
  ⟨mode_values_normalized.1 ⟨none, "", ""⟩ Reachable.init,
    mode_values_normalized.2 ⟨none, "", ""⟩ "step list files" "R" "step" "list files" []
      (by decide) (by decide)⟩

/-- C3: with the active context mode tutorial and topic grep, any
stripped non-empty input whose first word (lowercased) is neither a mode
keyword nor a control keyword is classified as a follow-up: the request
carries the follow-up prompt built from the history and the entire
original input, and the context is left exactly as it was. -/
theorem unprefixed_input_is_followup (H input : String)
    (h0 : pyStrip input = input) (hne : input ≠ "")
    (hfw : pyLower (firstWord input) ∉
      (["tutorial", "steps", "step", "quit", "exit", "q", "help", "clear"] : List String)) :
    classifyTurn ⟨some "tutorial", "grep", H⟩ input =
      ⟨false, some ("followup", format_followup_prompt H input), input,
        ⟨some "tutorial", "grep", H⟩⟩ := by
  have hctrl : ∀ kw : String, kw ∈ (["quit", "exit", "q", "clear", "help"] : List String) →
      pyLower input ≠ kw := by
    intro kw hkw hcon
    refine hfw ?_
    rw [firstWord_of_ctrl hkw hcon]
    fin_cases hkw <;> decide
  have h1 : ¬(pyLower input = "quit" ∨ pyLower input = "exit" ∨ pyLower input = "q") := by
    push_neg
    exact ⟨hctrl "quit" (by decide), hctrl "exit" (by decide), hctrl "q" (by decide)⟩
  unfold classifyTurn
  rw [h0, if_neg hne, if_neg h1, if_neg (hctrl "clear" (by decide)),
    if_neg (hctrl "help" (by decide))]
  cases hsp : splitMax1 input with
  | nil => simp [truthyMode]
  | cons w tl =>
    cases tl with
    | nil => simp [truthyMode]
    | cons q rest =>
      have hwfw : w = firstWord input := (splitMax1_pair hsp).1
      have hmn : ¬(pyLower w = "tutorial" ∨ pyLower w = "steps" ∨ pyLower w = "step") := by
        rw [hwfw]
        push_neg
        refine ⟨?_, ?_, ?_⟩ <;> intro hcon <;> exact hfw (by rw [hcon]; decide)
      simp [hmn, truthyMode]

/-- Witness for C3 at the concrete input of the specification. -/
theorem unprefixed_input_is_followup_wit :
    classifyTurn ⟨some "tutorial", "grep", "H1"⟩ "what about -v?" =
      ⟨false, some ("followup", format_followup_prompt "H1" "what about -v?"),
        "what about -v?", ⟨some "tutorial", "grep", "H1"⟩⟩ :=
  unprefixed_input_is_followup "H1" "what about -v?" (by decide) (by decide) (by decide)

/-- A turn with empty accumulated response leaves the dispatch of the
classification stage untouched (lines 389-390 only show an error). -/
lemma runTurn_failed (c : Context) (i : String) :
    runTurn c i "" = classifyTurn c i := by
  unfold runTurn
  cases h : (classifyTurn c i).req with
  | none => simp [h]
  | some v => simp [h]

/-- A turn with a request and a non-empty accumulated response applies the
history update to the classified context. -/
lemma runTurn_success (c : Context) (i resp : String) (v : String × String)
    (h : resp ≠ "") (hreq : (classifyTurn c i).req = some v) :
    runTurn c i resp =
      ⟨false, some v, (classifyTurn c i).query,
        updateHistory (classifyTurn c i).ctx (classifyTurn c i).query resp⟩ := by
  unfold runTurn
  simp only [hreq]
  rw [if_pos h]

/-- C1 counterexample, both failure modes.  First, a fresh tutorial
command whose generation raises before yielding anything (empty
accumulated text) still mutates the context, because the reset of
line 363 happens before the generation call.  Second, a follow-up turn
whose decode raises after two chunks were yielded accumulates the
non-empty partial text Hello, which line 379 accepts and lines 383-386
write into the history: partial history is written and the context is
mutated. -/
theorem failed_turn_context_counterexample :
    (genText ⟨[], true⟩ = "" ∧
      (runTurnGen ⟨some "steps", "x", "Topic: x\nUser: x\nAssistant: y\n"⟩
          "tutorial sed" ⟨[], true⟩).req ≠ none ∧
      (runTurnGen ⟨some "steps", "x", "Topic: x\nUser: x\nAssistant: y\n"⟩
          "tutorial sed" ⟨[], true⟩).ctx ≠
        ⟨some "steps", "x", "Topic: x\nUser: x\nAssistant: y\n"⟩) ∧
    (genText ⟨[StreamLine.obj [("response", "Hel")], StreamLine.obj [("response", "lo")]],
          true⟩ = "Hello" ∧
      (runTurnGen ⟨some "tutorial", "grep", "H"⟩ "what about -v?"
          ⟨[StreamLine.obj [("response", "Hel")], StreamLine.obj [("response", "lo")]],
            true⟩).ctx.history =
        "H\nUser: what about -v?\nAssistant: Hello\n") := by
  decide

/-- C1 (amended): generation failures split on the accumulated text.
When the accumulated response text is empty (the request failed, or the
transport/decode raised before yielding anything), the loop shows an
error and writes no history: a follow-up or no-request turn leaves the
context exactly as it was before the turn, and a fresh tutorial/steps
command leaves the reset context with the normalized mode, the rest of
the input as topic and an empty history, installed at classification
before the generation call.  When the transport/decode raised after
yielding a non-empty prefix, the loop cannot tell the partial text from
a complete response: the turn proceeds as a success and the partial text
is written to history by the update of lines 382-386. -/
theorem failed_turn_writes_no_history (c : Context) (i : String) (g : GenOutcome) :
    (genText g = "" →
      ((runTurnGen c i g).req = none ∨
          (∃ p, (runTurnGen c i g).req = some ("followup", p)) →
        (runTurnGen c i g).ctx = c) ∧
      (∀ (w q : String) (rest : List String), splitMax1 (pyStrip i) = w :: q :: rest →
          (pyLower w = "tutorial" ∨ pyLower w = "steps" ∨ pyLower w = "step") →
          (runTurnGen c i g).ctx = ⟨some (modeWord (pyLower w)), q, ""⟩)) ∧
    (genText g ≠ "" →
      ∀ v : String × String, (runTurnGen c i g).req = some v →
        (runTurnGen c i g).ctx =
          updateHistory (classifyTurn c i).ctx (classifyTurn c i).query (genText g)) := by
  constructor
  · intro hempty
    have hrt : runTurnGen c i g = classifyTurn c i := by
      unfold runTurnGen
      rw [hempty, runTurn_failed]
    constructor
    · rw [hrt]
      rcases classifyTurn_cases c i with he | he |
          ⟨w, q, rest, hsp, ⟨hm, he⟩ | ⟨hm, he⟩⟩ | ⟨h1, h2, he⟩ <;> rw [he]
      · exact fun _ => rfl
      · exact fun _ => rfl
      · rintro (hnone | ⟨p, hp⟩)
        · simp at hnone
        · simp only [Option.some.injEq, Prod.mk.injEq] at hp
          exact absurd hp.1 (by decide)
      · rintro (hnone | ⟨p, hp⟩)
        · simp at hnone
        · simp only [Option.some.injEq, Prod.mk.injEq] at hp
          exact absurd hp.1 (by decide)
      · exact fun _ => rfl
    · intro w q rest hsp hm
      rw [hrt, classifyTurn_fresh c i w q rest hsp hm]
      unfold modeWord
      by_cases ht : pyLower w = "tutorial"
      · rw [if_pos ht, if_pos ht]
      · rw [if_neg ht, if_neg ht]
  · intro hne v hreq
    have hreq2 : (classifyTurn c i).req = some v := by
      rw [← runTurn_req c i (genText g)]
      exact hreq
    have hs := runTurn_success c i (genText g) v hne hreq2
    unfold runTurnGen
    rw [hs]

/-- Witness for C1: a failed follow-up turn with empty accumulated text
leaves the context unchanged, and a decode failure after one yielded
chunk writes the partial text through the history update. -/
theorem failed_turn_writes_no_history_wit :
    (runTurnGen ⟨some "tutorial", "grep", "H"⟩ "hi there" ⟨[], true⟩).ctx =
      ⟨some "tutorial", "grep", "H"⟩ ∧
    (runTurnGen ⟨some "tutorial", "grep", "H"⟩ "hi there"
        ⟨[StreamLine.obj [("response", "He")]], true⟩).ctx =
      updateHistory (classifyTurn ⟨some "tutorial", "grep", "H"⟩ "hi there").ctx
        (classifyTurn ⟨some "tutorial", "grep", "H"⟩ "hi there").query
        (genText ⟨[StreamLine.obj [("response", "He")]], true⟩) :=
  ⟨((failed_turn_writes_no_history ⟨some "tutorial", "grep", "H"⟩ "hi there" ⟨[], true⟩).1
      (by decide)).1 (Or.inr ⟨format_followup_prompt "H" "hi there", by decide⟩),
   (failed_turn_writes_no_history ⟨some "tutorial", "grep", "H"⟩ "hi there"
      ⟨[StreamLine.obj [("response", "He")]], true⟩).2 (by decide)
      ("followup", format_followup_prompt "H" "hi there") (by decide)⟩

/-- C4 counterexample: a successful fresh command with non-empty prior
history does not append to the prior history; the history is re-seeded
from the new topic instead. -/
theorem fresh_success_reseeds_history :
    (runTurn ⟨some "tutorial", "grep", "Topic: grep\nUser: grep\nAssistant: R1\n"⟩
        "tutorial sed" "R2").ctx.history ≠
      "Topic: grep\nUser: grep\nAssistant: R1\n" ++ "\nUser: sed\nAssistant: R2\n" ∧
    (runTurn ⟨some "tutorial", "grep", "Topic: grep\nUser: grep\nAssistant: R1\n"⟩
        "tutorial sed" "R2").ctx.history =
      "Topic: sed\nUser: sed\nAssistant: R2\n" := by
  decide

/-- C4 (amended): for every successful turn, the history written is
determined by the history at the moment of the update (which a fresh
command has just reset): a successful follow-up turn seeds
Topic/User/Assistant when the pre-turn history was empty and appends
otherwise; a successful fresh command always seeds from the new topic.
In particular the specification's two-turn scenario produces exactly the
stated history. -/
theorem history_accumulation_rule :
    (∀ (c : Context) (i resp p : String), resp ≠ "" →
        (runTurn c i resp).req = some ("followup", p) →
        (runTurn c i resp).ctx.history =
          if c.history = "" then
            "Topic: " ++ c.topic ++ "\nUser: " ++ pyStrip i ++ "\nAssistant: " ++ resp ++ "\n"
          else
            c.history ++ "\nUser: " ++ pyStrip i ++ "\nAssistant: " ++ resp ++ "\n") ∧
    (∀ (c : Context) (i resp m p : String), resp ≠ "" →
        (runTurn c i resp).req = some (m, p) → m ≠ "followup" →
        (runTurn c i resp).ctx.history =
          "Topic: " ++ (runTurn c i resp).ctx.topic ++ "\nUser: " ++
            (runTurn c i resp).ctx.topic ++ "\nAssistant: " ++ resp ++ "\n") ∧
    (runTurn (runTurn ⟨none, "", ""⟩ "tutorial grep" "R1").ctx "Q2" "R2").ctx.history =
      "Topic: grep\nUser: grep\nAssistant: R1\n\nUser: Q2\nAssistant: R2\n" := by
  refine ⟨?_, ?_, by decide⟩
  · intro c i resp p hresp hreq
    rw [runTurn_req] at hreq
    have hrun := runTurn_success c i resp _ hresp hreq
    rcases classifyTurn_cases c i with he | he |
        ⟨w, q, rest, hsp, ⟨hm, he⟩ | ⟨hm, he⟩⟩ | ⟨h1, h2, he⟩
    · rw [he] at hreq; simp at hreq
    · rw [he] at hreq; simp at hreq
    · rw [he] at hreq
      simp only [Option.some.injEq, Prod.mk.injEq] at hreq
      exact absurd hreq.1 (by decide)
    · rw [he] at hreq
      simp only [Option.some.injEq, Prod.mk.injEq] at hreq
      exact absurd hreq.1 (by decide)
    · rw [hrun, he]
      unfold updateHistory
      by_cases hh : c.history = ""
      · simp [hh]
      · simp [hh]
  · intro c i resp m p hresp hreq hm
    rw [runTurn_req] at hreq
    have hrun := runTurn_success c i resp _ hresp hreq
    rcases classifyTurn_cases c i with he | he |
        ⟨w, q, rest, hsp, ⟨hmm, he⟩ | ⟨hmm, he⟩⟩ | ⟨h1, h2, he⟩
    · rw [he] at hreq; simp at hreq
    · rw [he] at hreq; simp at hreq
    · rw [hrun, he]
      unfold updateHistory
      simp
    · rw [hrun, he]
      unfold updateHistory
      simp
    · rw [he] at hreq
      simp only [Option.some.injEq, Prod.mk.injEq] at hreq
      exact absurd hreq.1.symm hm

/-- Witness for C4 at a concrete successful follow-up turn with empty
pre-turn history. -/
theorem history_accumulation_rule_wit :
    (runTurn ⟨some "tutorial", "sed", ""⟩ "Q2" "R2").ctx.history =
      if ("" : String) = "" then
        "Topic: " ++ "sed" ++ "\nUser: " ++ pyStrip "Q2" ++ "\nAssistant: " ++ "R2" ++ "\n"
      else
        "" ++ "\nUser: " ++ pyStrip "Q2" ++ "\nAssistant: " ++ "R2" ++ "\n" :=
  history_accumulation_rule.1 ⟨some "tutorial", "sed", ""⟩ "Q2" "R2"
    (format_followup_prompt "" "Q2") (by decide) (by decide)

/-- A string visibly decomposed around a pattern contains the pattern. -/
lemma containsStr_of_eq (s a pat b : String) (h : s = a ++ pat ++ b) :
    containsStr s pat := by
  refine ⟨a.data, b.data, ?_⟩
  rw [h]
  simp [String.data_append]

/-- With empty history the tutorial prompt is head, command, tail. -/
lemma format_tutorial_prompt_empty (T : String) :
    format_tutorial_prompt T "" = tutorialHead ++ T ++ tutorialTail := by
  unfold format_tutorial_prompt
  simp

/-- C7 counterexample: for the topic Previous conversation, the
history-free tutorial prompt does contain the phrase Previous
conversation, because the topic is interpolated verbatim. -/
theorem tutorial_prompt_phrase_collision :
    containsStr (format_tutorial_prompt "Previous conversation" "") prevConv :=
  containsStr_of_eq _ tutorialHead "Previous conversation" tutorialTail
    (format_tutorial_prompt_empty "Previous conversation")

/-- C7 (amended): the tutorial prompt formatter is a total function on
strings; for every topic T the history-free prompt contains T verbatim,
and it contains the phrase Previous conversation only if T itself does;
for every non-empty history H the prompt contains both T and H. -/
theorem tutorial_prompt_contains_rule (T H : String) :
    containsStr (format_tutorial_prompt T "") T ∧
    (¬ containsStr T prevConv → ¬ containsStr (format_tutorial_prompt T "") prevConv) ∧
    (H ≠ "" → containsStr (format_tutorial_prompt T H) T ∧
      containsStr (format_tutorial_prompt T H) H) := by
  refine ⟨?_, ?_, ?_⟩
  · exact containsStr_of_eq _ tutorialHead T tutorialTail (format_tutorial_prompt_empty T)
  · intro hT hcon
    rw [format_tutorial_prompt_empty] at hcon
    have hcon' : prevConv.data <:+: tutorialHead.data ++ (T.data ++ tutorialTail.data) := by
      have h2 : (tutorialHead ++ T ++ tutorialTail).data =
          tutorialHead.data ++ (T.data ++ tutorialTail.data) := by
        simp [String.data_append, List.append_assoc]
      rw [← h2]
      exact hcon
    rcases append_split_of_mid hcon' with h | h | ⟨p₁, p₂, hp, hp1, hp2, hsuf, _⟩
    · exact absurd h (by decide)
    · rcases append_split_of_mid h with h2 | h2 | ⟨q₁, q₂, hq, hq1, hq2, _, hqpre⟩
      · exact hT h2
      · exact absurd h2 (by decide)
      · cases q₂ with
        | nil => exact hq2 rfl
        | cons c cs =>
          obtain ⟨t', ht'⟩ := hqpre
          have hc : c = '\n' := by
            have hh := congrArg List.head? ht'
            rw [List.cons_append, List.head?_cons] at hh
            have hh2 : tutorialTail.data.head? = some '\n' := rfl
            rw [hh2] at hh
            exact Option.some.inj hh
          have hcmem : c ∈ prevConv.data := by
            rw [hq]
            exact List.mem_append_right q₁ (List.mem_cons_self c cs)
          rw [hc] at hcmem
          exact absurd hcmem (by decide)
    · have hk : p₁ = prevConv.data.take p₁.length := by
        rw [hp, List.take_left]
      have hklen : p₁.length < prevConv.data.length := by
        have h2 : 0 < p₂.length := List.length_pos.2 hp2
        rw [hp, List.length_append]
        omega
      have hdec : ∀ k, k < prevConv.data.length → 1 ≤ k →
          ¬ (prevConv.data.take k <:+ tutorialHead.data) := by decide
      refine hdec p₁.length hklen ?_ ?_
      · have h1 : 0 < p₁.length := List.length_pos.2 hp1
        omega
      · rw [← hk]
        exact hsuf
  · intro hH
    have h1 : format_tutorial_prompt T H = (tutorialHead ++ T ++ tutorialTail) ++ historyBlock H := by
      unfold format_tutorial_prompt
      rw [if_pos hH]
    constructor
    · refine containsStr_of_eq _ tutorialHead T (tutorialTail ++ historyBlock H) ?_
      rw [h1, String.append_assoc]
    · refine containsStr_of_eq _
        ((tutorialHead ++ T ++ tutorialTail) ++ "\n\nPrevious conversation:\n") H
        "\n\nPlease answer the follow-up question above, maintaining context from the previous discussion." ?_
      rw [h1]
      unfold historyBlock
      simp [String.append_assoc]

/-- Witness for C7 at the topic grep and a concrete non-empty history. -/
theorem tutorial_prompt_contains_rule_wit :
    containsStr (format_tutorial_prompt "grep" "") "grep" ∧
    ¬ containsStr (format_tutorial_prompt "grep" "") prevConv ∧
    containsStr (format_tutorial_prompt "grep" "H1") "H1" :=
  ⟨(tutorial_prompt_contains_rule "grep" "H1").1,
   (tutorial_prompt_contains_rule "grep" "H1").2.1 (by decide),
   ((tutorial_prompt_contains_rule "grep" "H1").2.2 (by decide)).2⟩

/-- Witness for C8 at the successful outcome. -/
theorem check_ollama_true_iff_200_wit :
    check_ollama (TagsOutcome.resp 200) = true :=
  (check_ollama_true_iff_200 (TagsOutcome.resp 200)).mpr rfl
